import Mathlib

/-!
Shallow embedding of the sentiment aggregation and caching core of the
twitter-mcp-server repository.

Embedded components:
- the per-client fixed-window rate limiter (`src/services/rate_limiter.py`),
- the TTL cache and the sentiment pipeline of `TwitterMarketMCP`
  (`src/services/twitter_market_mcp.py`),
- the `analyze_market_sentiment` endpoint pipeline and its pure text-signal
  helpers (`src/twitter_mcp.py`).

Timestamps and sentiment scores are modelled as rationals.  Python dicts are
modelled as association lists in insertion order.  External collaborators
(the Twitter search client, the TextBlob polarity scorer, TextBlob noun
phrases, the pandas standard-deviation routine) are parameters of the
embedded functions.
-/

/-! ### Association-list helpers (Python dict model) and their lemmas -/

/-- Python `d[k] = v` on a dict modelled as an association list in insertion
order: replace the value in place if the key is present, otherwise append. -/
def dictSet {β : Type} (m : List (String × β)) (k : String) (v : β) :
    List (String × β) :=
  if (m.find? (fun p => p.1 == k)).isSome then
    m.map (fun p => if p.1 == k then (k, v) else p)
  else m ++ [(k, v)]

lemma find?_filter_of_find? {β : Type} {l : List β} {p q : β → Bool} {a : β}
    (h : l.find? p = some a) (hq : q a = true) :
    (l.filter q).find? p = some a := by
  induction l with
  | nil => simp at h
  | cons b l ih =>
    rw [List.find?_cons] at h
    by_cases hb : p b = true
    · rw [hb] at h
      obtain rfl : b = a := by injection h
      rw [List.filter_cons_of_pos hq, List.find?_cons, hb]
    · rw [Bool.not_eq_true] at hb
      rw [hb] at h
      by_cases hqb : q b = true
      · rw [List.filter_cons_of_pos hqb, List.find?_cons, hb]
        exact ih h
      · rw [List.filter_cons_of_neg (by simpa using hqb)]
        exact ih h

lemma find?_map_update {β : Type} {l : List (String × β)} {k : String} (v : β)
    (h : (l.find? (fun p => p.1 == k)).isSome = true) :
    (l.map (fun p => if p.1 == k then (k, v) else p)).find?
      (fun p => p.1 == k) = some (k, v) := by
  induction l with
  | nil => simp at h
  | cons b l ih =>
    rw [List.find?_cons] at h
    by_cases hb : (b.1 == k) = true
    · simp only [List.map_cons, if_pos hb]
      rw [List.find?_cons]
      simp
    · rw [Bool.not_eq_true] at hb
      have hhead : (if (b.1 == k) = true then (k, v) else b) = b :=
        if_neg (by simp [hb])
      rw [List.map_cons, hhead, List.find?_cons, hb]
      rw [hb] at h
      exact ih h

lemma find?_dictSet {β : Type} (l : List (String × β)) (k : String) (v : β) :
    (dictSet l k v).find? (fun p => p.1 == k) = some (k, v) := by
  unfold dictSet
  by_cases h : (l.find? (fun p => p.1 == k)).isSome = true
  · rw [if_pos h]
    exact find?_map_update v h
  · rw [if_neg h]
    rw [List.find?_append]
    have hnone : l.find? (fun p => p.1 == k) = none :=
      Option.not_isSome_iff_eq_none.mp (by simpa using h)
    rw [hnone]
    simp

/-- With duplicate-free keys, the first entry found under a key is any entry
of the list carrying that key. -/
lemma find?_key_eq_of_mem {β : Type} {l : List (String × β)} {c : String}
    {p : String × β} (hnd : (l.map Prod.fst).Nodup) (hp : p ∈ l)
    (hc : p.1 = c) : l.find? (fun q => q.1 == c) = some p := by
  induction l with
  | nil => cases hp
  | cons b l ih =>
    rw [List.map_cons, List.nodup_cons] at hnd
    rcases List.mem_cons.mp hp with rfl | hmem
    · rw [List.find?_cons, (by simpa using hc : (p.1 == c) = true)]
    · have hb : (b.1 == c) = false := by
        rw [beq_eq_false_iff_ne]
        intro hb1
        exact hnd.1 (by rw [hb1, ← hc]; exact List.mem_map_of_mem Prod.fst hmem)
      rw [List.find?_cons, hb]
      exact ih hnd.2 hmem

lemma find?_map_of_key_pres {β γ : Type} (l : List (String × β))
    (f : String × β → String × γ) (hf : ∀ p, (f p).1 = p.1) (c : String) :
    (l.map f).find? (fun p => p.1 == c)
      = (l.find? (fun p => p.1 == c)).map f := by
  induction l with
  | nil => simp
  | cons b l ih =>
    have hfb : ((f b).1 == c) = (b.1 == c) := by rw [hf]
    rw [List.map_cons, List.find?_cons, List.find?_cons]
    by_cases hb : (b.1 == c) = true
    · simp only [hfb, hb]
      simp
    · rw [Bool.not_eq_true] at hb
      simp only [hfb, hb]
      exact ih

/-! ### RateLimiter (`src/services/rate_limiter.py`) -/

/-- State of `RateLimiter.__init__`: the admission limit, the window length in
seconds, and the per-client timestamp lists (`request_counts`). -/
structure RateLimiter where
  requests_per_window : ℕ
  window_seconds : ℚ
  request_counts : List (String × List ℚ)

/-- The per-list cleanup comprehension of `is_allowed`: keep the timestamps
with `now - timestamp < window_seconds`. -/
def pruneTimestamps (window now : ℚ) (timestamps : List ℚ) : List ℚ :=
  timestamps.filter (fun timestamp => now - timestamp < window)

/-- `RateLimiter.is_allowed` (rate_limiter.py lines 15-34): rebuild every
client's list keeping only in-window timestamps, insert an empty list for an
unseen client, reject when the pruned list has reached the limit, otherwise
append `now` and admit. -/
def RateLimiter.is_allowed (rl : RateLimiter) (now : ℚ) (client_ip : String) :
    Bool × RateLimiter :=
  let cleaned := rl.request_counts.map
    (fun p => (p.1, pruneTimestamps rl.window_seconds now p.2))
  let counts :=
    if (cleaned.find? (fun p => p.1 == client_ip)).isSome then cleaned
    else cleaned ++ [(client_ip, [])]
  let current := ((counts.find? (fun p => p.1 == client_ip)).map Prod.snd).getD []
  let appended := counts.map
    (fun p => if p.1 == client_ip then (p.1, p.2 ++ [now]) else p)
  if rl.requests_per_window ≤ current.length then
    (false, { rl with request_counts := counts })
  else
    (true, { rl with request_counts := appended })

/-- A sequence of `is_allowed` calls for one client at the given times,
threading the limiter state and collecting the returned booleans. -/
def admitRun (rl : RateLimiter) (client_ip : String) : List ℚ → List Bool × RateLimiter
  | [] => ([], rl)
  | t :: ts =>
    ((rl.is_allowed t client_ip).1
        :: (admitRun (rl.is_allowed t client_ip).2 client_ip ts).1,
      (admitRun (rl.is_allowed t client_ip).2 client_ip ts).2)

lemma is_allowed_singleton_true (lim : ℕ) (win : ℚ) (c : String) (l : List ℚ)
    (now : ℚ) (h : (pruneTimestamps win now l).length < lim) :
    RateLimiter.is_allowed ⟨lim, win, [(c, l)]⟩ now c
      = (true, ⟨lim, win, [(c, pruneTimestamps win now l ++ [now])]⟩) := by
  unfold RateLimiter.is_allowed
  simp only [List.map_cons, List.map_nil, List.find?_cons, beq_self_eq_true,
    Option.isSome_some, if_true, Option.map_some', Option.getD_some]
  rw [if_neg (by omega)]

lemma is_allowed_singleton_false (lim : ℕ) (win : ℚ) (c : String) (l : List ℚ)
    (now : ℚ) (h : lim ≤ (pruneTimestamps win now l).length) :
    RateLimiter.is_allowed ⟨lim, win, [(c, l)]⟩ now c
      = (false, ⟨lim, win, [(c, pruneTimestamps win now l)]⟩) := by
  unfold RateLimiter.is_allowed
  simp only [List.map_cons, List.map_nil, List.find?_cons, beq_self_eq_true,
    Option.isSome_some, if_true, Option.map_some', Option.getD_some]
  rw [if_pos h]

lemma is_allowed_empty_true (lim : ℕ) (win : ℚ) (c : String) (now : ℚ)
    (h : 0 < lim) :
    RateLimiter.is_allowed ⟨lim, win, []⟩ now c = (true, ⟨lim, win, [(c, [now])]⟩) := by
  unfold RateLimiter.is_allowed
  simp only [List.map_nil, List.find?_nil, Option.isSome_none, Bool.false_eq_true,
    if_false, List.nil_append, List.find?_cons, beq_self_eq_true,
    Option.map_some', Option.getD_some, List.length_nil]
  rw [if_neg (by omega)]
  simp

lemma admitRun_no_prune (lim : ℕ) (win : ℚ) (c : String) (times : List ℚ) :
    ∀ acc : List ℚ,
    (∀ a ∈ acc, ∀ s ∈ times, s - a < win) →
    times.Pairwise (fun a b => b - a < win) →
    acc.length + times.length ≤ lim →
    admitRun ⟨lim, win, [(c, acc)]⟩ c times
      = (times.map (fun _ => true), ⟨lim, win, [(c, acc ++ times)]⟩) := by
  induction times with
  | nil => intro acc _ _ _; simp [admitRun]
  | cons t ts ih =>
    intro acc hacc hpw hlen
    rw [List.pairwise_cons] at hpw
    have hkeep : pruneTimestamps win t acc = acc :=
      List.filter_eq_self.mpr (fun a ha => by
        simpa using hacc a ha t (List.mem_cons_self t ts))
    have hstep := is_allowed_singleton_true lim win c acc t
      (by rw [hkeep]; simp at hlen ⊢; omega)
    rw [hkeep] at hstep
    have hrest := ih (acc ++ [t])
      (by
        intro a ha s hs
        rcases List.mem_append.mp ha with ha' | ha'
        · exact hacc a ha' s (List.mem_cons_of_mem t hs)
        · obtain rfl : a = t := by simpa using ha'
          exact hpw.1 s hs)
      hpw.2
      (by simp at hlen ⊢; omega)
    simp only [admitRun, hstep, hrest]
    simp

lemma admitRun_empty_cons (lim : ℕ) (win : ℚ) (c : String) (t : ℚ) (ts : List ℚ)
    (hwin : (t :: ts).Pairwise (fun a b => a ≤ b ∧ b - a < win))
    (hN : (t :: ts).length ≤ lim) :
    admitRun ⟨lim, win, []⟩ c (t :: ts)
      = ((t :: ts).map (fun _ => true), ⟨lim, win, [(c, t :: ts)]⟩) := by
  rw [List.pairwise_cons] at hwin
  have hstep := is_allowed_empty_true lim win c t (by simp at hN; omega)
  have hrest := admitRun_no_prune lim win c ts [t]
    (by
      intro a ha s hs
      obtain rfl : a = t := by simpa using ha
      exact (hwin.1 s hs).2)
    (hwin.2.imp (fun h => h.2))
    (by simp at hN ⊢; omega)
  simp only [admitRun, hstep, hrest]
  simp

/-- C2: starting from a fresh limiter, any N ≤ limit admissions for one client
within the window all return true; after exactly `limit` admissions still
inside the window the next call for that client returns false; once the window
has elapsed past every earlier admitted timestamp, a further call returns true
again.  (`times` carries the within-limit run, `timesB` the boundary run of
exactly `limit` calls.) -/
theorem claim_C2_fixed_window (lim : ℕ) (win : ℚ) (c : String)
    (times timesB : List ℚ) (t t' : ℚ)
    (hlim : 1 ≤ lim)
    (hwin : times.Pairwise (fun a b => a ≤ b ∧ b - a < win))
    (hN : times.length ≤ lim)
    (hwinB : timesB.Pairwise (fun a b => a ≤ b ∧ b - a < win))
    (hNB : timesB.length = lim)
    (hsame : ∀ s ∈ timesB, t - s < win)
    (hafter : ∀ s ∈ timesB, win ≤ t' - s) :
    (admitRun ⟨lim, win, []⟩ c times).1 = times.map (fun _ => true) ∧
    ((admitRun ⟨lim, win, []⟩ c timesB).2.is_allowed t c).1 = false ∧
    ((admitRun ⟨lim, win, []⟩ c timesB).2.is_allowed t' c).1 = true := by
  have hB : timesB ≠ [] := by
    intro h
    rw [h] at hNB
    simp at hNB
    omega
  obtain ⟨tB, tsB, rfl⟩ := List.exists_cons_of_ne_nil hB
  have hrunB := admitRun_empty_cons lim win c tB tsB hwinB (by omega)
  refine ⟨?_, ?_, ?_⟩
  · cases times with
    | nil => simp [admitRun]
    | cons t0 ts0 =>
      rw [admitRun_empty_cons lim win c t0 ts0 hwin hN]
  · rw [hrunB]
    have hkeep : pruneTimestamps win t (tB :: tsB) = tB :: tsB :=
      List.filter_eq_self.mpr (fun a ha => by simpa using hsame a ha)
    rw [is_allowed_singleton_false lim win c _ t (by rw [hkeep]; omega)]
  · rw [hrunB]
    have hdrop : pruneTimestamps win t' (tB :: tsB) = [] :=
      List.filter_eq_nil_iff.mpr (fun a ha => by
        simp only [decide_eq_true_eq, not_lt]
        exact hafter a ha)
    rw [is_allowed_singleton_true lim win c _ t' (by rw [hdrop]; simpa using hlim)]

/-- Witness for C2 at limit 2, window 10: admissions at times 0 and 1, a third
call at time 2 rejected, a call at time 12 admitted again. -/
theorem claim_C2_fixed_window_witness :
    (admitRun ⟨2, 10, []⟩ "A" [0, 1]).1 = [true, true] ∧
    ((admitRun ⟨2, 10, []⟩ "A" [0, 1]).2.is_allowed 2 "A").1 = false ∧
    ((admitRun ⟨2, 10, []⟩ "A" [0, 1]).2.is_allowed 12 "A").1 = true := by
  have h := claim_C2_fixed_window 2 10 "A" [0, 1] [0, 1] 2 12
    (by norm_num) (by norm_num) (by norm_num) (by norm_num) (by norm_num)
    (by intro s hs; fin_cases hs <;> norm_num)
    (by intro s hs; fin_cases hs <;> norm_num)
  exact h

/-- The dict comprehension at the top of `is_allowed`: every client's list
pruned to its in-window timestamps. -/
def cleanedCounts (rl : RateLimiter) (now : ℚ) : List (String × List ℚ) :=
  rl.request_counts.map (fun p => (p.1, pruneTimestamps rl.window_seconds now p.2))

/-- The append step of `is_allowed`: add `now` to the caller's list. -/
def appendNow (now : ℚ) (c : String) (counts : List (String × List ℚ)) :
    List (String × List ℚ) :=
  counts.map (fun p => if p.1 == c then (p.1, p.2 ++ [now]) else p)

lemma is_allowed_found (rl : RateLimiter) (now : ℚ) (c : String)
    (q : String × List ℚ)
    (hq : rl.request_counts.find? (fun p => p.1 == c) = some q) :
    rl.is_allowed now c =
      if rl.requests_per_window ≤ (pruneTimestamps rl.window_seconds now q.2).length
      then (false, ⟨rl.requests_per_window, rl.window_seconds, cleanedCounts rl now⟩)
      else (true, ⟨rl.requests_per_window, rl.window_seconds,
        appendNow now c (cleanedCounts rl now)⟩) := by
  unfold RateLimiter.is_allowed cleanedCounts appendNow
  have hfc : (rl.request_counts.map
      (fun p => (p.1, pruneTimestamps rl.window_seconds now p.2))).find?
        (fun p => p.1 == c)
      = some (q.1, pruneTimestamps rl.window_seconds now q.2) := by
    rw [find?_map_of_key_pres rl.request_counts
      (fun p => (p.1, pruneTimestamps rl.window_seconds now p.2)) (fun _ => rfl) c, hq]
    rfl
  simp only [hfc, Option.isSome_some, if_true, Option.map_some', Option.getD_some]

lemma is_allowed_not_found (rl : RateLimiter) (now : ℚ) (c : String)
    (hq : rl.request_counts.find? (fun p => p.1 == c) = none) :
    rl.is_allowed now c =
      if rl.requests_per_window = 0
      then (false, ⟨rl.requests_per_window, rl.window_seconds,
        cleanedCounts rl now ++ [(c, [])]⟩)
      else (true, ⟨rl.requests_per_window, rl.window_seconds,
        appendNow now c (cleanedCounts rl now) ++ [(c, [now])]⟩) := by
  unfold RateLimiter.is_allowed cleanedCounts appendNow
  have hfc : (rl.request_counts.map
      (fun p => (p.1, pruneTimestamps rl.window_seconds now p.2))).find?
        (fun p => p.1 == c) = none := by
    rw [find?_map_of_key_pres rl.request_counts
      (fun p => (p.1, pruneTimestamps rl.window_seconds now p.2)) (fun _ => rfl) c, hq]
    rfl
  simp only [hfc, Option.isSome_none, Bool.false_eq_true, if_false,
    List.find?_append, hfc, Option.none_or, List.find?_cons, beq_self_eq_true,
    Option.map_some', Option.getD_some, List.length_nil, Nat.le_zero,
    List.map_append, List.map_cons, List.map_nil, if_true, List.append_nil,
    List.nil_append]

lemma key_pres_append (now : ℚ) (c : String) :
    ∀ p : String × List ℚ,
      ((if p.1 == c then (p.1, p.2 ++ [now]) else p) : String × List ℚ).1 = p.1 := by
  intro p
  split <;> rfl

lemma cleanedCounts_keys (rl : RateLimiter) (now : ℚ) :
    (cleanedCounts rl now).map Prod.fst = rl.request_counts.map Prod.fst := by
  unfold cleanedCounts
  rw [List.map_map]
  rfl

lemma cleanedCounts_length_le (rl : RateLimiter) (now : ℚ)
    (hinv : ∀ p ∈ rl.request_counts, p.2.length ≤ rl.requests_per_window) :
    ∀ p ∈ cleanedCounts rl now, p.2.length ≤ rl.requests_per_window := by
  intro p hp
  obtain ⟨p', hp', rfl⟩ := List.mem_map.mp hp
  exact le_trans (List.length_filter_le _ _) (hinv p' hp')

/-- C8: with duplicate-free client keys, the invariant that every stored
timestamp list has length at most `requests_per_window` is preserved by every
`is_allowed` call, and the admission decision compares the limit against the
PRUNED length of the caller's list (out-of-window timestamps are removed
before the count check, never after). -/
theorem claim_C8_window_invariant (rl : RateLimiter) (now : ℚ) (c : String)
    (hnodup : (rl.request_counts.map Prod.fst).Nodup)
    (hinv : ∀ p ∈ rl.request_counts, p.2.length ≤ rl.requests_per_window) :
    (∀ p ∈ (rl.is_allowed now c).2.request_counts,
        p.2.length ≤ rl.requests_per_window) ∧
    ((rl.is_allowed now c).1 = true ↔
      (pruneTimestamps rl.window_seconds now
        (((rl.request_counts.find? (fun p => p.1 == c)).map Prod.snd).getD [])).length
        < rl.requests_per_window) := by
  have hclean := cleanedCounts_length_le rl now hinv
  have hckeys : ((cleanedCounts rl now).map Prod.fst).Nodup := by
    rw [cleanedCounts_keys]
    exact hnodup
  cases hfind : rl.request_counts.find? (fun p => p.1 == c) with
  | some q =>
    rw [is_allowed_found rl now c q hfind]
    have hfc : (cleanedCounts rl now).find? (fun p => p.1 == c)
        = some (q.1, pruneTimestamps rl.window_seconds now q.2) := by
      unfold cleanedCounts
      rw [find?_map_of_key_pres rl.request_counts
        (fun p => (p.1, pruneTimestamps rl.window_seconds now p.2)) (fun _ => rfl) c,
        hfind]
      rfl
    by_cases hle : rl.requests_per_window
        ≤ (pruneTimestamps rl.window_seconds now q.2).length
    · rw [if_pos hle]
      refine ⟨hclean, ?_⟩
      simp only [hfind, Option.map_some', Option.getD_some]
      constructor
      · intro h; cases h
      · intro h; omega
    · rw [if_neg hle]
      constructor
      · intro p hp
        obtain ⟨p', hp', rfl⟩ := List.mem_map.mp hp
        by_cases hpc : (p'.1 == c) = true
        · have hfp' := find?_key_eq_of_mem hckeys hp' (by simpa using hpc)
          rw [hfc] at hfp'
          obtain rfl : p' = (q.1, pruneTimestamps rl.window_seconds now q.2) := by
            injection hfp'.symm
          rw [if_pos hpc]
          simp only [List.length_append, List.length_singleton]
          omega
        · rw [if_neg hpc]
          exact hclean p' hp'
      · simp only [hfind, Option.map_some', Option.getD_some]
        constructor
        · intro _; omega
        · intro _; trivial
  | none =>
    rw [is_allowed_not_found rl now c hfind]
    have hprune_nil : pruneTimestamps rl.window_seconds now [] = [] := rfl
    have hall : ∀ p ∈ cleanedCounts rl now, ¬ ((fun p => p.1 == c) p = true) := by
      have : (cleanedCounts rl now).find? (fun p => p.1 == c) = none := by
        unfold cleanedCounts
        rw [find?_map_of_key_pres rl.request_counts
          (fun p => (p.1, pruneTimestamps rl.window_seconds now p.2)) (fun _ => rfl) c,
          hfind]
        rfl
      exact List.find?_eq_none.mp this
    by_cases h0 : rl.requests_per_window = 0
    · rw [if_pos h0]
      constructor
      · intro p hp
        rcases List.mem_append.mp hp with hp' | hp'
        · exact hclean p hp'
        · obtain rfl : p = (c, []) := by simpa using hp'
          simp
      · simp only [hfind, Option.map_none', Option.getD_none, hprune_nil]
        constructor
        · intro h; cases h
        · intro h; simp at h; omega
    · rw [if_neg h0]
      constructor
      · intro p hp
        rcases List.mem_append.mp hp with hp' | hp'
        · unfold appendNow at hp'
          obtain ⟨p2, hp2, rfl⟩ := List.mem_map.mp hp'
          have hpc : ¬ ((p2.1 == c) = true) := hall p2 hp2
          rw [if_neg hpc]
          exact hclean p2 hp2
        · obtain rfl : p = (c, [now]) := by simpa using hp'
          simp only [List.length_singleton]
          omega
      · simp only [hfind, Option.map_none', Option.getD_none, hprune_nil]
        constructor
        · intro _; simp; omega
        · intro _; trivial

/-- Concrete limiter for the C8 witness: limit 2, window 10, one client with
two stored timestamps. -/
def rlC8 : RateLimiter := ⟨2, 10, [("A", [0, 5])]⟩

/-- Witness for C8: both timestamps of client A are still in the window at
time 6, so the pruned length 2 reaches the limit and the call is rejected. -/
theorem claim_C8_window_invariant_witness :
    (∀ p ∈ (rlC8.is_allowed 6 "A").2.request_counts,
        p.2.length ≤ rlC8.requests_per_window) ∧
    ((rlC8.is_allowed 6 "A").1 = true ↔
      (pruneTimestamps rlC8.window_seconds 6
        (((rlC8.request_counts.find? (fun p => p.1 == "A")).map Prod.snd).getD [])).length
        < rlC8.requests_per_window) :=
  claim_C8_window_invariant rlC8 6 "A" (by decide) (by decide)

/-- Concrete limiter refuting C9: limit 1, window 10, client A holds an
out-of-window timestamp when client B calls. -/
def rlC9 : RateLimiter := ⟨1, 10, [("A", [0]), ("B", [5])]⟩

/-- C9 counterexample: a call by client B at time 20 rewrites client A's
stored list from [0] to [] — `is_allowed` prunes EVERY client's window, not
only the caller's, so the lists of other clients are not left unchanged. -/
theorem claim_C9_counterexample :
    rlC9.request_counts.find? (fun p => p.1 == "A") = some ("A", [0]) ∧
    (rlC9.is_allowed 20 "B").2.request_counts.find? (fun p => p.1 == "A")
      = some ("A", []) := by
  refine ⟨rfl, ?_⟩
  norm_num [rlC9, RateLimiter.is_allowed, pruneTimestamps, List.filter, List.find?]
  simp

/-- C9 amended: every `is_allowed` call prunes the timestamp lists of ALL
clients (each stored list is replaced by its in-window part), not only the
caller's; a rejected call appends no timestamp — after a rejection the
caller's stored list is exactly the pruned version of its previous list. -/
theorem claim_C9_global_prune (rl : RateLimiter) (now : ℚ) (c : String)
    (hnodup : (rl.request_counts.map Prod.fst).Nodup) :
    (∀ p ∈ rl.request_counts, p.1 ≠ c →
      (rl.is_allowed now c).2.request_counts.find? (fun q => q.1 == p.1)
        = some (p.1, pruneTimestamps rl.window_seconds now p.2)) ∧
    ((rl.is_allowed now c).1 = false →
      (rl.is_allowed now c).2.request_counts.find? (fun q => q.1 == c)
        = some (c, pruneTimestamps rl.window_seconds now
            (((rl.request_counts.find? (fun q => q.1 == c)).map Prod.snd).getD []))) := by
  have hckeys : ((cleanedCounts rl now).map Prod.fst).Nodup := by
    rw [cleanedCounts_keys]
    exact hnodup
  have hmemc : ∀ p ∈ rl.request_counts,
      (p.1, pruneTimestamps rl.window_seconds now p.2) ∈ cleanedCounts rl now := by
    intro p hp
    exact List.mem_map_of_mem _ hp
  cases hfind : rl.request_counts.find? (fun q => q.1 == c) with
  | some q =>
    have hfc : (cleanedCounts rl now).find? (fun p => p.1 == c)
        = some (q.1, pruneTimestamps rl.window_seconds now q.2) := by
      unfold cleanedCounts
      rw [find?_map_of_key_pres rl.request_counts
        (fun p => (p.1, pruneTimestamps rl.window_seconds now p.2)) (fun _ => rfl) c,
        hfind]
      rfl
    have hqc : q.1 = c := by
      have := List.find?_some hfind
      simpa using this
    rw [is_allowed_found rl now c q hfind]
    by_cases hle : rl.requests_per_window
        ≤ (pruneTimestamps rl.window_seconds now q.2).length
    · rw [if_pos hle]
      constructor
      · intro p hp hpc
        exact find?_key_eq_of_mem hckeys (hmemc p hp) rfl
      · intro _
        rw [hfc]
        simp only [Option.map_some', Option.getD_some]
        rw [hqc]
    · rw [if_neg hle]
      constructor
      · intro p hp hpc
        have hfcl : (appendNow now c (cleanedCounts rl now)).find? (fun q => q.1 == p.1)
            = some (p.1, pruneTimestamps rl.window_seconds now p.2) := by
          unfold appendNow
          rw [find?_map_of_key_pres (cleanedCounts rl now)
            (fun x => if x.1 == c then (x.1, x.2 ++ [now]) else x)
            (key_pres_append now c) p.1]
          rw [find?_key_eq_of_mem hckeys (hmemc p hp) rfl]
          simp only [Option.map_some']
          rw [if_neg (by simpa using hpc)]
        exact hfcl
      · intro hfalse
        simp at hfalse
  | none =>
    have hall : ∀ p ∈ cleanedCounts rl now, ¬ ((fun q => q.1 == c) p = true) := by
      have hfc : (cleanedCounts rl now).find? (fun p => p.1 == c) = none := by
        unfold cleanedCounts
        rw [find?_map_of_key_pres rl.request_counts
          (fun p => (p.1, pruneTimestamps rl.window_seconds now p.2)) (fun _ => rfl) c,
          hfind]
        rfl
      exact List.find?_eq_none.mp hfc
    rw [is_allowed_not_found rl now c hfind]
    by_cases h0 : rl.requests_per_window = 0
    · rw [if_pos h0]
      constructor
      · intro p hp hpc
        rw [List.find?_append, find?_key_eq_of_mem hckeys (hmemc p hp) rfl]
        rfl
      · intro _
        rw [List.find?_append]
        have h1 : (cleanedCounts rl now).find? (fun q => q.1 == c) = none :=
          List.find?_eq_none.mpr hall
        rw [h1]
        simp [pruneTimestamps]
    · rw [if_neg h0]
      constructor
      · intro p hp hpc
        rw [List.find?_append]
        have hfcl : (appendNow now c (cleanedCounts rl now)).find? (fun q => q.1 == p.1)
            = some (p.1, pruneTimestamps rl.window_seconds now p.2) := by
          unfold appendNow
          rw [find?_map_of_key_pres (cleanedCounts rl now)
            (fun x => if x.1 == c then (x.1, x.2 ++ [now]) else x)
            (key_pres_append now c) p.1]
          rw [find?_key_eq_of_mem hckeys (hmemc p hp) rfl]
          simp only [Option.map_some']
          rw [if_neg (by simpa using hpc)]
        rw [hfcl]
        rfl
      · intro hfalse
        simp at hfalse

/-- Concrete limiter for the rejection half of the C9 witness: client B's
list is full and still in the window at call time. -/
def rlC9r : RateLimiter := ⟨1, 10, [("B", [5])]⟩

/-- Witness for the amended C9: B's call at time 20 rewrites A's list to its
pruned (empty) form, and a rejected call by B leaves B's list exactly pruned
with nothing appended. -/
theorem claim_C9_global_prune_witness :
    (rlC9.is_allowed 20 "B").2.request_counts.find? (fun q => q.1 == "A")
      = some ("A", pruneTimestamps rlC9.window_seconds 20 [0]) ∧
    (rlC9r.is_allowed 6 "B").2.request_counts.find? (fun q => q.1 == "B")
      = some ("B", pruneTimestamps rlC9r.window_seconds 6
          (((rlC9r.request_counts.find? (fun q => q.1 == "B")).map Prod.snd).getD [])) := by
  constructor
  · exact (claim_C9_global_prune rlC9 20 "B" (by decide)).1 ("A", [0])
      (List.Mem.head _) (by decide)
  · exact (claim_C9_global_prune rlC9r 6 "B" (by decide)).2
      (by norm_num [rlC9r, RateLimiter.is_allowed, pruneTimestamps, List.filter,
        List.find?])

/-! ### TwitterMarketMCP cache (`src/services/twitter_market_mcp.py`) -/

/-- State of `TwitterMarketMCP.__init__`: the symbol-keyed cache of
`(timestamp, data)` records and the TTL `cache_duration`.  The stored value
type is a parameter. -/
structure TwitterMarketMCP (α : Type) where
  cache : List (String × (ℚ × α))
  cache_duration : ℚ

/-- `TwitterMarketMCP.get_cached_sentiment` (twitter_market_mcp.py lines
31-37): return the stored data while its age is strictly below
`cache_duration`, absent otherwise.  A read never mutates the store. -/
def TwitterMarketMCP.get_cached_sentiment {α : Type} (m : TwitterMarketMCP α)
    (now : ℚ) (symbol : String) : Option α :=
  match m.cache.find? (fun p => p.1 == symbol) with
  | some p => if now - p.2.1 < m.cache_duration then some p.2.2 else none
  | none => none

/-- The expiry-ignoring read of the cache dict: plain membership access of the
raw record, as performed by the rate-limit fallback path
(twitter_mcp.py lines 210-212) and by `symbol in self.cache`. -/
def TwitterMarketMCP.get_stale_sentiment {α : Type} (m : TwitterMarketMCP α)
    (symbol : String) : Option α :=
  (m.cache.find? (fun p => p.1 == symbol)).map (fun p => p.2.2)

/-- `TwitterMarketMCP.cache_sentiment` (twitter_market_mcp.py lines 39-56):
store `(now, data)` under `symbol`, then sweep the whole store deleting every
entry whose age strictly exceeds `cache_duration`. -/
def TwitterMarketMCP.cache_sentiment {α : Type} (m : TwitterMarketMCP α)
    (now : ℚ) (symbol : String) (data : α) : TwitterMarketMCP α :=
  let updated := dictSet m.cache symbol (now, data)
  { m with cache := updated.filter (fun p => !(m.cache_duration < now - p.2.1)) }

lemma cache_sentiment_find? {α : Type} (m : TwitterMarketMCP α) (t0 : ℚ)
    (k : String) (v : α) (hdur : 0 ≤ m.cache_duration) :
    (m.cache_sentiment t0 k v).cache.find? (fun p => p.1 == k)
      = some (k, (t0, v)) := by
  unfold TwitterMarketMCP.cache_sentiment
  apply find?_filter_of_find? (find?_dictSet m.cache k (t0, v))
  simp only [Bool.not_eq_true']
  rw [decide_eq_false_iff_not]
  simp only [sub_self, not_lt]
  exact hdur

/-- C1: immediately after `cache_sentiment` (and for as long as less than
`cache_duration` has elapsed, with no intervening write) `get_cached_sentiment`
returns the stored value; once strictly more than `cache_duration` has elapsed
it returns absent, while the raw record is still structurally present and
`get_stale_sentiment` still returns the value — reads remove nothing, sweeps
happen only inside the write path. -/
theorem claim_C1_cache_round_trip {α : Type} (m : TwitterMarketMCP α)
    (k : String) (v : α) (t0 ta tb : ℚ) (hdur : 0 ≤ m.cache_duration)
    (hfresh : ta - t0 < m.cache_duration) (hexp : m.cache_duration < tb - t0) :
    (m.cache_sentiment t0 k v).get_cached_sentiment ta k = some v ∧
    (m.cache_sentiment t0 k v).get_cached_sentiment tb k = none ∧
    (m.cache_sentiment t0 k v).get_stale_sentiment k = some v := by
  have hfind := cache_sentiment_find? m t0 k v hdur
  have hddur : (m.cache_sentiment t0 k v).cache_duration = m.cache_duration := rfl
  refine ⟨?_, ?_, ?_⟩
  · unfold TwitterMarketMCP.get_cached_sentiment
    rw [hfind]
    simp only [hddur]
    rw [if_pos hfresh]
  · unfold TwitterMarketMCP.get_cached_sentiment
    rw [hfind]
    simp only [hddur]
    rw [if_neg (by linarith)]
  · unfold TwitterMarketMCP.get_stale_sentiment
    rw [hfind]
    rfl

/-- Witness for C1: ttl 100, write at time 0, fresh read at 50, expired read
at 150, stale read still succeeding. -/
theorem claim_C1_cache_round_trip_witness :
    ((⟨[], 100⟩ : TwitterMarketMCP ℕ).cache_sentiment 0 "k" 7).get_cached_sentiment
        50 "k" = some 7 ∧
    ((⟨[], 100⟩ : TwitterMarketMCP ℕ).cache_sentiment 0 "k" 7).get_cached_sentiment
        150 "k" = none ∧
    ((⟨[], 100⟩ : TwitterMarketMCP ℕ).cache_sentiment 0 "k" 7).get_stale_sentiment
        "k" = some 7 :=
  claim_C1_cache_round_trip ⟨[], 100⟩ "k" 7 0 50 150 (by norm_num) (by norm_num)
    (by norm_num)

/-! ### Text-signal helpers of `src/twitter_mcp.py` -/

/-- Maximal run of decimal digits at the head of the character list, together
with the remainder. -/
def takeDigits : List Char → List Char × List Char
  | [] => ([], [])
  | ch :: rest =>
    if ch.isDigit then
      let d := takeDigits rest
      (ch :: d.1, d.2)
    else ([], ch :: rest)

/-- Greedy match at the current position of the first alternative of the
price pattern of `extract_price_mentions`: a dollar sign, one or more digits,
an optional decimal point, further digits. -/
def matchDollarPre : List Char → Option (List Char × List Char)
  | [] => none
  | ch :: rest =>
    if ch = '$' then
      let d1 := takeDigits rest
      if d1.1.isEmpty then none
      else
        match d1.2 with
        | '.' :: tail =>
          let d2 := takeDigits tail
          some ('$' :: d1.1 ++ '.' :: d2.1, d2.2)
        | _ => some ('$' :: d1.1, d1.2)
    else none

/-- Greedy match at the current position of the second alternative of the
price pattern: digits, an optional decimal point, further digits, then a
dollar sign. -/
def matchDollarPost (cs : List Char) : Option (List Char × List Char) :=
  let d1 := takeDigits cs
  if d1.1.isEmpty then none
  else
    match d1.2 with
    | '$' :: tail => some (d1.1 ++ ['$'], tail)
    | '.' :: tail =>
      let d2 := takeDigits tail
      match d2.2 with
      | '$' :: tail2 => some (d1.1 ++ '.' :: d2.1 ++ ['$'], tail2)
      | _ => none
    | _ => none

/-- Regex alternation at one position: the dollar-prefixed alternative is
preferred, as in the pattern of `extract_price_mentions`. -/
def priceMatchAt (cs : List Char) : Option (List Char × List Char) :=
  match matchDollarPre cs with
  | some r => some r
  | none => matchDollarPost cs

/-- Left-to-right non-overlapping scan of `re.findall`: on a match emit the
token and continue after it, otherwise advance one character.  The fuel is the
input length; every match consumes at least one character, so the fuel never
runs out before the input does. -/
def priceFindallAux : ℕ → List Char → List (List Char)
  | 0, _ => []
  | _ + 1, [] => []
  | fuel + 1, ch :: rest =>
    match priceMatchAt (ch :: rest) with
    | some r => r.1 :: priceFindallAux fuel r.2
    | none => priceFindallAux fuel rest

/-- All price tokens of one text, in order. -/
def price_findall (text : String) : List String :=
  (priceFindallAux text.data.length text.data).map (fun cs => String.mk cs)

/-- One `Counter` increment: bump the count of the key if present, otherwise
append it with count 1 (`collections.Counter` keeps first-seen key order). -/
def counterAdd (counts : List (String × ℕ)) (k : String) : List (String × ℕ) :=
  if (counts.find? (fun p => p.1 == k)).isSome then
    counts.map (fun p => if p.1 == k then (p.1, p.2 + 1) else p)
  else counts ++ [(k, 1)]

/-- `extract_price_mentions` (twitter_mcp.py lines 86-93): collect the regex
matches of every text and count occurrences of each literal token. -/
def extract_price_mentions (texts : List String) : List (String × ℕ) :=
  ((texts.map price_findall).flatten).foldl counterAdd []

/-- The fixed bullish lexicon of `calculate_bullish_ratio`. -/
def bullish_words : List String :=
  ["buy", "bull", "long", "up", "calls", "moon", "higher"]

/-- The fixed bearish lexicon of `calculate_bullish_ratio`. -/
def bearish_words : List String :=
  ["sell", "bear", "short", "down", "puts", "crash", "lower"]

/-- Python `text.lower()` for the ASCII lexicon comparison, as a character
list. -/
def text_lower (text : String) : List Char := text.data.map Char.toLower

/-- Python `any(word in text_lower for word in words)`: some lexicon word
occurs as a contiguous substring of the lowercased text. -/
def hasAnyWord (words : List String) (text : String) : Bool :=
  words.any (fun word => word.data <:+: text_lower text)

/-- `calculate_bullish_ratio` (twitter_mcp.py lines 95-110): count texts with
a bullish lexicon hit and texts with a bearish hit (one text may count toward
both), return bullish/(bullish+bearish), or 0.5 when both counts are zero. -/
def calculate_bullish_ratio (texts : List String) : ℚ :=
  let bullish_count := (texts.filter (hasAnyWord bullish_words)).length
  let bearish_count := (texts.filter (hasAnyWord bearish_words)).length
  let total := bullish_count + bearish_count
  if 0 < total then (bullish_count : ℚ) / (total : ℚ) else 1/2

/-- The domain-relevance terms of `extract_market_topics`. -/
def topic_terms : List String := ["market", "stock", "trade", "price", "investor"]

/-- Stable insertion for descending length order (Python `sorted` with
`key=len, reverse=True` is stable). -/
def insertLenDesc (s : String) : List String → List String
  | [] => [s]
  | t :: ts => if s.length < t.length then t :: insertLenDesc s ts else s :: t :: ts

def sortLenDesc : List String → List String
  | [] => []
  | s :: ss => insertLenDesc s (sortLenDesc ss)

/-- Deduplication keeping the first occurrence of each phrase. -/
def firstDedup : List String → List String
  | [] => []
  | s :: rest => s :: firstDedup (rest.filter (fun t => !(t == s)))
termination_by l => l.length
decreasing_by
  simp only [List.length_cons]
  exact Nat.lt_succ_of_le (List.length_filter_le _ _)

/-- `extract_market_topics` (twitter_mcp.py lines 112-119): join the texts,
obtain noun phrases from the external TextBlob collaborator, keep the
finance-related ones, deduplicate, order by descending length and truncate.
Python iterates a `set`, whose order is unspecified; first-occurrence order is
used here. -/
def extract_market_topics (noun_phrases : String → List String)
    (texts : List String) (max_topics : ℕ) : List String :=
  let combined := String.intercalate " " texts
  let finance_phrases := (noun_phrases combined).filter
    (fun phrase => topic_terms.any (fun term => term.data <:+: phrase.data))
  (sortLenDesc (firstDedup finance_phrases)).take max_topics

/-! ### The `analyze_market_sentiment` endpoint (`src/twitter_mcp.py`) -/

/-- Python `round` to `places` decimal digits, ties to even. -/
def roundHalfToEven (x : ℚ) : ℤ :=
  let f := ⌊x⌋
  if x - f < 1/2 then f
  else if 1/2 < x - f then f + 1
  else if f % 2 = 0 then f else f + 1

def roundDec (places : ℕ) (x : ℚ) : ℚ :=
  (roundHalfToEven (x * 10 ^ places) : ℚ) / 10 ^ places

/-- twitter_mcp.py line 84: module-level cache TTL of five minutes. -/
def CACHE_DURATION : ℚ := 300

/-- twitter_mcp.py line 159: `max_results=10` passed to
`client.search_recent_tweets` (reduced from 100 to avoid rate limits). -/
def search_max_results : ℕ := 10

/-- The `MarketSentimentResponse` pydantic model (twitter_mcp.py lines
51-58). -/
structure MarketSentimentResponse where
  symbol : String
  sentiment_score : ℚ
  sentiment_label : String
  tweet_count : ℕ
  common_topics : List String
  price_mentions : List (String × ℕ)
  bullish_ratio : ℚ
deriving DecidableEq

/-- Outcome of the single `client.search_recent_tweets` call: the texts of
the returned tweets (empty when `tweets.data` is falsy), or one of the tweepy
exceptions handled by the endpoint. -/
inductive FetchOutcome where
  | ok (texts : List String)
  | tooManyRequests
  | forbidden
  | otherFailure
deriving DecidableEq

/-- Result of the endpoint: a response, or the HTTPException raised
(429 on rate limit, 403 on denied access, 500 otherwise). -/
inductive AnalyzeOutcome where
  | ok (response : MarketSentimentResponse)
  | rateLimitedError
  | accessDeniedError
  | internalError
deriving DecidableEq

/-- The module-level `sentiment_cache`: symbol to `(timestamp, response)`. -/
def SentimentCache : Type := List (String × (ℚ × MarketSentimentResponse))

/-- The cache check at the top of the endpoint (twitter_mcp.py lines
150-153): the cached response if present and younger than
`CACHE_DURATION`. -/
def cachedFresh (cache : SentimentCache) (now : ℚ) (symbol : String) :
    Option MarketSentimentResponse :=
  match cache.find? (fun p => p.1 == symbol) with
  | some p => if now - p.2.1 < CACHE_DURATION then some p.2.2 else none
  | none => none

/-- The synthesized response of the empty-batch branch (twitter_mcp.py lines
164-172). -/
def neutralResponse (symbol : String) : MarketSentimentResponse :=
  { symbol := symbol
    sentiment_score := 0
    sentiment_label := "neutral"
    tweet_count := 0
    common_topics := []
    price_mentions := []
    bullish_ratio := 1/2 }

/-- The response assembled on the nonempty-batch path (twitter_mcp.py lines
176-202): per-text polarity scores from the external scorer, average with the
0.1 label thresholds, and the three extractors. -/
def buildResponse (score : String → ℚ) (noun_phrases : String → List String)
    (symbol : String) (texts : List String) : MarketSentimentResponse :=
  let sentiments := texts.map score
  let avg := if sentiments.isEmpty then 0
    else sentiments.sum / (sentiments.length : ℚ)
  let label := if (1/10 : ℚ) < avg then "bullish"
    else if avg < -(1/10 : ℚ) then "bearish" else "neutral"
  { symbol := symbol
    sentiment_score := roundDec 3 avg
    sentiment_label := label
    tweet_count := texts.length
    common_topics := extract_market_topics noun_phrases texts 5
    price_mentions := extract_price_mentions texts
    bullish_ratio := roundDec 2 (calculate_bullish_ratio texts) }

/-- The body of the endpoint after the cache check (twitter_mcp.py lines
155-229): dispatch on the outcome of the single upstream search.  On a rate
limit, fall back to the cached record ignoring its expiry before raising 429;
on an empty batch, cache and return the neutral response; otherwise cache and
return the assembled response. -/
def analyzeFetched (score : String → ℚ) (noun_phrases : String → List String)
    (cache : SentimentCache) (now : ℚ) (symbol : String)
    (outcome : FetchOutcome) : AnalyzeOutcome × SentimentCache :=
  match outcome with
  | FetchOutcome.tooManyRequests =>
    match cache.find? (fun p => p.1 == symbol) with
    | some p => (AnalyzeOutcome.ok p.2.2, cache)
    | none => (AnalyzeOutcome.rateLimitedError, cache)
  | FetchOutcome.forbidden => (AnalyzeOutcome.accessDeniedError, cache)
  | FetchOutcome.otherFailure => (AnalyzeOutcome.internalError, cache)
  | FetchOutcome.ok texts =>
    if texts.isEmpty then
      (AnalyzeOutcome.ok (neutralResponse symbol),
        dictSet cache symbol (now, neutralResponse symbol))
    else
      (AnalyzeOutcome.ok (buildResponse score noun_phrases symbol texts),
        dictSet cache symbol (now, buildResponse score noun_phrases symbol texts))

/-- The whole endpoint `analyze_market_sentiment` (twitter_mcp.py lines
146-229): a fresh cache hit is returned with no upstream call; otherwise the
search client is invoked exactly once with `search_max_results` and the
outcome is processed by `analyzeFetched`.  The third component counts the
upstream search invocations. -/
def analyze_market_sentiment (score : String → ℚ)
    (noun_phrases : String → List String) (cache : SentimentCache) (now : ℚ)
    (symbol : String) (search : ℕ → FetchOutcome) :
    AnalyzeOutcome × SentimentCache × ℕ :=
  match cachedFresh cache now symbol with
  | some response => (AnalyzeOutcome.ok response, cache, 0)
  | none =>
    let r := analyzeFetched score noun_phrases cache now symbol
      (search search_max_results)
    (r.1, r.2, 1)

/-! ### Sentiment pipeline of `TwitterMarketMCP`
    (`src/services/twitter_market_mcp.py`) -/

/-- `TwitterMarketMCP.analyze_sentiment` (twitter_market_mcp.py lines 22-29):
the outcome of the external TextBlob polarity scorer on one text; on success
the polarity is returned, any raised exception is caught, logged, and replaced
by the neutral score 0.0. -/
def analyze_sentiment (scorer_outcome : Except String ℚ) : ℚ :=
  match scorer_outcome with
  | Except.ok polarity => polarity
  | Except.error _ => 0

/-- twitter_market_mcp.py line 112: the average sentiment, 0 for an empty
sequence of scores. -/
def avg_sentiment (sentiments : List ℚ) : ℚ :=
  if sentiments.isEmpty then 0 else sentiments.sum / (sentiments.length : ℚ)

/-- twitter_market_mcp.py line 113: the three-way label by the sign of the
average. -/
def sentiment_label (avg : ℚ) : String :=
  if 0 < avg then "positive" else if avg < 0 then "negative" else "neutral"

/-- The aggregation contract of the core (spec section 4.4), as computed by
twitter_market_mcp.py lines 112-113: average score together with its label. -/
def aggregate (sentiments : List ℚ) : ℚ × String :=
  (avg_sentiment sentiments, sentiment_label (avg_sentiment sentiments))

/-- An upstream news article as consumed by the pipeline: the fields read via
`article.get`. -/
structure Article where
  title : String
  link : String
deriving DecidableEq

/-- One entry of `news_analysis`. -/
structure NewsItem where
  title : String
  link : String
  sentiment : ℚ
deriving DecidableEq

/-- The result dict assembled by `TwitterMarketMCP.analyze_market_sentiment`
(twitter_market_mcp.py lines 115-126); the ISO timestamp string is modelled
by the rational evaluation time. -/
structure MarketAnalysisResult where
  symbol : String
  price_trend : String
  volatility : ℚ
  sentiment_label : String
  sentiment_score : ℚ
  news_analysis : List NewsItem
  overall_assessment : String
  produced_at : ℚ
deriving DecidableEq

/-- The qualitative classification of twitter_market_mcp.py lines 128-137. -/
def overall_assessment_text (avg : ℚ) (price_trend : String) : String :=
  if 1/5 < avg ∧ price_trend = "upward" then
    "Strong bullish sentiment with positive momentum"
  else if 0 < avg ∧ price_trend = "upward" then
    "Moderately bullish sentiment"
  else if avg < -(1/5 : ℚ) ∧ price_trend = "downward" then
    "Strong bearish sentiment with negative momentum"
  else if avg < 0 ∧ price_trend = "downward" then
    "Moderately bearish sentiment"
  else "Mixed or neutral market sentiment"

/-- `TwitterMarketMCP.analyze_market_sentiment` (twitter_market_mcp.py lines
81-142).  External collaborators are parameters: `scorer` is the TextBlob
polarity call on one title (which may raise), `std` is the pandas
standard-deviation routine on the closing prices, `closes` the closing-price
history from yfinance and `news` the article list.  A fresh cache hit is
returned unchanged; an empty history raises ValueError; otherwise up to ten
articles are scored, the result dict is assembled, cached (with sweep) and
returned together with the new cache state. -/
def buildMarketAnalysis (scorer : String → Except String ℚ)
    (std : List ℚ → ℚ) (now : ℚ) (symbol : String) (closes : List ℚ)
    (news : List Article) : MarketAnalysisResult :=
  let meanClose := closes.sum / (closes.length : ℚ)
  let price_trend := if meanClose < closes.getLastD 0 then "upward"
    else "downward"
  let volatility := std closes / meanClose * 100
  let news_items := (news.take 10).map
    (fun article =>
      ({ title := article.title, link := article.link,
         sentiment := analyze_sentiment (scorer article.title) } : NewsItem))
  let sentiments := news_items.map NewsItem.sentiment
  let avg := avg_sentiment sentiments
  { symbol := symbol
    price_trend := price_trend
    volatility := volatility
    sentiment_label := sentiment_label avg
    sentiment_score := avg
    news_analysis := news_items
    overall_assessment := overall_assessment_text avg price_trend
    produced_at := now }

def TwitterMarketMCP.analyze_market_sentiment (scorer : String → Except String ℚ)
    (std : List ℚ → ℚ) (m : TwitterMarketMCP MarketAnalysisResult) (now : ℚ)
    (symbol : String) (closes : List ℚ) (news : List Article) :
    Except String (MarketAnalysisResult × TwitterMarketMCP MarketAnalysisResult) :=
  match m.get_cached_sentiment now symbol with
  | some cached => Except.ok (cached, m)
  | none =>
    if closes.isEmpty then
      Except.error ("No data found for symbol " ++ symbol)
    else
      let result := buildMarketAnalysis scorer std now symbol closes news
      Except.ok (result, m.cache_sentiment now symbol result)

lemma sentiment_label_cases (a : ℚ) :
    (sentiment_label a = "positive" ↔ 0 < a) ∧
    (sentiment_label a = "negative" ↔ a < 0) ∧
    (sentiment_label a = "neutral" ↔ a = 0) := by
  unfold sentiment_label
  split_ifs with h1 h2
  · exact ⟨⟨fun _ => h1, fun _ => rfl⟩,
      ⟨fun h => absurd h (by decide), fun h => absurd (lt_trans h h1) (lt_irrefl a)⟩,
      ⟨fun h => absurd h (by decide), fun h => absurd (h ▸ h1) (lt_irrefl (0 : ℚ))⟩⟩
  · exact ⟨⟨fun h => absurd h (by decide), fun h => absurd h h1⟩,
      ⟨fun _ => h2, fun _ => rfl⟩,
      ⟨fun h => absurd h (by decide), fun h => absurd (h ▸ h2) (lt_irrefl (0 : ℚ))⟩⟩
  · have ha : a = 0 := le_antisymm (not_lt.mp h1) (not_lt.mp h2)
    exact ⟨⟨fun h => absurd h (by decide), fun h => absurd h h1⟩,
      ⟨fun h => absurd h (by decide), fun h => absurd h h2⟩,
      ⟨fun _ => ha, fun _ => rfl⟩⟩

/-- C5: `aggregate` returns the arithmetic mean of the scores with the label
given by its strict sign, `(0, neutral)` on the empty sequence, and in
particular `(0, neutral)` on `[0.5, -0.5]` and `(0.3, positive)` on
`[0.3, 0.3]`. -/
theorem claim_C5_aggregate_mean_and_sign (scores : List ℚ) (hne : scores ≠ []) :
    (aggregate scores).1 = scores.sum / (scores.length : ℚ) ∧
    ((aggregate scores).2 = "positive" ↔ 0 < (aggregate scores).1) ∧
    ((aggregate scores).2 = "negative" ↔ (aggregate scores).1 < 0) ∧
    ((aggregate scores).2 = "neutral" ↔ (aggregate scores).1 = 0) ∧
    aggregate [] = (0, "neutral") ∧
    aggregate [1/2, -(1/2)] = (0, "neutral") ∧
    aggregate [3/10, 3/10] = (3/10, "positive") := by
  have hmean : (aggregate scores).1 = scores.sum / (scores.length : ℚ) := by
    unfold aggregate avg_sentiment
    rw [if_neg (by simpa [List.isEmpty_iff] using hne)]
  refine ⟨hmean, (sentiment_label_cases _).1, (sentiment_label_cases _).2.1,
    (sentiment_label_cases _).2.2, ?_, ?_, ?_⟩
  · rfl
  · norm_num [aggregate, avg_sentiment, sentiment_label]
  · norm_num [aggregate, avg_sentiment, sentiment_label]

/-- Witness for C5 on the nonempty list `[0.3, 0.3]`. -/
theorem claim_C5_aggregate_mean_and_sign_witness :
    (aggregate [3/10, 3/10]).1 = ([3/10, 3/10] : List ℚ).sum / 2 ∧
    ((aggregate [3/10, 3/10]).2 = "positive" ↔ 0 < (aggregate [3/10, 3/10]).1) ∧
    aggregate [] = (0, "neutral") ∧
    aggregate [1/2, -(1/2)] = (0, "neutral") ∧
    aggregate [3/10, 3/10] = (3/10, "positive") := by
  have h := claim_C5_aggregate_mean_and_sign [3/10, 3/10] (by simp)
  exact ⟨by simpa using h.1, h.2.1, h.2.2.2.2.1, h.2.2.2.2.2.1, h.2.2.2.2.2.2⟩

/-- C6: a text counts as a bullish (bearish) hit exactly when some lexicon
word occurs case-insensitively as a substring of it; the ratio equals
bullish hits over total hits, lies in [0, 1], and defaults to 0.5 when both
counts are zero — in particular on the empty batch. -/
theorem claim_C6_bullish_ratio_spec (texts texts0 : List String)
    (h0b : texts0.filter (hasAnyWord bullish_words) = [])
    (h0s : texts0.filter (hasAnyWord bearish_words) = []) :
    (∀ t : String, hasAnyWord bullish_words t = true ↔
        ∃ w ∈ bullish_words, w.data <:+: text_lower t) ∧
    (∀ t : String, hasAnyWord bearish_words t = true ↔
        ∃ w ∈ bearish_words, w.data <:+: text_lower t) ∧
    0 ≤ calculate_bullish_ratio texts ∧
    calculate_bullish_ratio texts ≤ 1 ∧
    (0 < (texts.filter (hasAnyWord bullish_words)).length
        + (texts.filter (hasAnyWord bearish_words)).length →
      calculate_bullish_ratio texts
        = ((texts.filter (hasAnyWord bullish_words)).length : ℚ)
          / (((texts.filter (hasAnyWord bullish_words)).length : ℚ)
            + ((texts.filter (hasAnyWord bearish_words)).length : ℚ))) ∧
    calculate_bullish_ratio texts0 = 1/2 ∧
    calculate_bullish_ratio [] = 1/2 := by
  have hiff : ∀ (words : List String) (t : String),
      hasAnyWord words t = true ↔ ∃ w ∈ words, w.data <:+: text_lower t := by
    intro words t
    unfold hasAnyWord
    rw [List.any_eq_true]
    constructor
    · rintro ⟨w, hw, hsub⟩
      exact ⟨w, hw, of_decide_eq_true hsub⟩
    · rintro ⟨w, hw, hsub⟩
      exact ⟨w, hw, decide_eq_true hsub⟩
  set B := (texts.filter (hasAnyWord bullish_words)).length with hB
  set S := (texts.filter (hasAnyWord bearish_words)).length with hS
  have hratio : calculate_bullish_ratio texts
      = if 0 < B + S then (B : ℚ) / ((B + S : ℕ) : ℚ) else 1/2 := rfl
  refine ⟨hiff bullish_words, hiff bearish_words, ?_, ?_, ?_, ?_, ?_⟩
  · rw [hratio]
    split_ifs with h
    · positivity
    · norm_num
  · rw [hratio]
    split_ifs with h
    · rw [div_le_one (by exact_mod_cast h)]
      exact_mod_cast Nat.le_add_right B S
    · norm_num
  · intro h
    rw [hratio, if_pos h]
    push_cast
    ring
  · unfold calculate_bullish_ratio
    rw [h0b, h0s]
    norm_num
  · rfl

/-- Witness for C6: `["buy now"]` is a pure bullish batch and `["zzz"]` has no
lexicon hit at all. -/
theorem claim_C6_bullish_ratio_spec_witness :
    (∀ t : String, hasAnyWord bullish_words t = true ↔
        ∃ w ∈ bullish_words, w.data <:+: text_lower t) ∧
    0 ≤ calculate_bullish_ratio ["buy now"] ∧
    calculate_bullish_ratio ["buy now"] ≤ 1 ∧
    calculate_bullish_ratio ["zzz"] = 1/2 ∧
    calculate_bullish_ratio [] = 1/2 := by
  have h := claim_C6_bullish_ratio_spec ["buy now"] ["zzz"] (by decide) (by decide)
  exact ⟨h.1, h.2.2.1, h.2.2.2.1, h.2.2.2.2.2.1, h.2.2.2.2.2.2⟩

/-- C7 counterexample: a failure of the external polarity scorer is NOT
propagated — `TwitterMarketMCP.analyze_sentiment` swallows the raised
exception and fabricates the neutral score 0.0, contradicting the claim that
every scorer failure reaches the caller. -/
theorem claim_C7_counterexample :
    analyze_sentiment (Except.error "TextBlob raised an exception") = 0 := rfl

/-- C7 amended: inside `TwitterMarketMCP.analyze_sentiment` every failure of
the external polarity scorer is caught and silently converted to the
fabricated neutral score 0.0 (only logged), while a successful score is
returned unchanged; so per-item scorer failures never propagate out of the
sentiment step. -/
theorem claim_C7_scorer_failure_neutralized (e : String) (polarity : ℚ) :
    analyze_sentiment (Except.error e) = 0 ∧
    analyze_sentiment (Except.ok polarity) = polarity :=
  ⟨rfl, rfl⟩

lemma analyze_miss (score : String → ℚ) (noun_phrases : String → List String)
    (cache : SentimentCache) (now : ℚ) (symbol : String)
    (search : ℕ → FetchOutcome)
    (hmiss : cachedFresh cache now symbol = none) :
    analyze_market_sentiment score noun_phrases cache now symbol search
      = ((analyzeFetched score noun_phrases cache now symbol
            (search search_max_results)).1,
         (analyzeFetched score noun_phrases cache now symbol
            (search search_max_results)).2, 1) := by
  unfold analyze_market_sentiment
  rw [hmiss]

/-- C3: when the single upstream search raises the rate-limit signal under a
cache miss, the endpoint returns the cached response for the symbol ignoring
its expiry whenever any cached record exists; with no cached record the
rate-limit failure itself is raised; in both cases the upstream search was
invoked exactly once (no internal retry). -/
theorem claim_C3_rate_limited_stale_fallback (score : String → ℚ)
    (noun_phrases : String → List String) (cache : SentimentCache) (now : ℚ)
    (symbol : String) (search : ℕ → FetchOutcome)
    (hmiss : cachedFresh cache now symbol = none)
    (hrl : search search_max_results = FetchOutcome.tooManyRequests) :
    (∀ p : String × (ℚ × MarketSentimentResponse),
      cache.find? (fun q => q.1 == symbol) = some p →
      analyze_market_sentiment score noun_phrases cache now symbol search
        = (AnalyzeOutcome.ok p.2.2, cache, 1)) ∧
    (cache.find? (fun q => q.1 == symbol) = none →
      analyze_market_sentiment score noun_phrases cache now symbol search
        = (AnalyzeOutcome.rateLimitedError, cache, 1)) := by
  have hbase := analyze_miss score noun_phrases cache now symbol search hmiss
  rw [hrl] at hbase
  constructor
  · intro p hp
    rw [hbase]
    simp only [analyzeFetched]
    rw [hp]
  · intro hp
    rw [hbase]
    simp only [analyzeFetched]
    rw [hp]

/-- Concrete cache for the C3 witness: one record for symbol A written 1000
seconds before the call, far beyond the 300-second TTL. -/
def cacheC3 : SentimentCache := [("A", (-1000, neutralResponse "A"))]

/-- Witness for C3: with a stale record the endpoint serves it under a rate
limit; with an empty cache the rate-limit failure is raised; one upstream call
in both cases. -/
theorem claim_C3_rate_limited_stale_fallback_witness :
    analyze_market_sentiment (fun _ => 0) (fun _ => []) cacheC3 0 "A"
        (fun _ => FetchOutcome.tooManyRequests)
      = (AnalyzeOutcome.ok (neutralResponse "A"), cacheC3, 1) ∧
    analyze_market_sentiment (fun _ => 0) (fun _ => []) [] 0 "B"
        (fun _ => FetchOutcome.tooManyRequests)
      = (AnalyzeOutcome.rateLimitedError, [], 1) := by
  have hmiss : cachedFresh cacheC3 0 "A" = none := by
    norm_num [cachedFresh, cacheC3, CACHE_DURATION, List.find?]
  constructor
  · exact (claim_C3_rate_limited_stale_fallback (fun _ => 0) (fun _ => [])
      cacheC3 0 "A" (fun _ => FetchOutcome.tooManyRequests) hmiss rfl).1
      ("A", (-1000, neutralResponse "A")) rfl
  · exact (claim_C3_rate_limited_stale_fallback (fun _ => 0) (fun _ => [])
      [] 0 "B" (fun _ => FetchOutcome.tooManyRequests) rfl rfl).2 rfl

/-- C4: under a cache miss, an empty fetched batch makes the endpoint return
the synthesized neutral response — score 0, label neutral, zero items, empty
topics and price mentions, bullish ratio 0.5 — and store exactly that
response in the cache under the requested symbol (one upstream call, no
error). -/
theorem claim_C4_empty_batch_neutral_cached (score : String → ℚ)
    (noun_phrases : String → List String) (cache : SentimentCache) (now : ℚ)
    (symbol : String) (search : ℕ → FetchOutcome)
    (hmiss : cachedFresh cache now symbol = none)
    (hempty : search search_max_results = FetchOutcome.ok []) :
    analyze_market_sentiment score noun_phrases cache now symbol search
      = (AnalyzeOutcome.ok (neutralResponse symbol),
         dictSet cache symbol (now, neutralResponse symbol), 1) ∧
    (neutralResponse symbol).sentiment_score = 0 ∧
    (neutralResponse symbol).sentiment_label = "neutral" ∧
    (neutralResponse symbol).tweet_count = 0 ∧
    (neutralResponse symbol).common_topics = [] ∧
    (neutralResponse symbol).price_mentions = [] ∧
    (neutralResponse symbol).bullish_ratio = 1/2 ∧
    (dictSet cache symbol (now, neutralResponse symbol)).find?
        (fun p => p.1 == symbol)
      = some (symbol, (now, neutralResponse symbol)) := by
  have hbase := analyze_miss score noun_phrases cache now symbol search hmiss
  rw [hempty] at hbase
  refine ⟨?_, rfl, rfl, rfl, rfl, rfl, rfl, find?_dictSet cache symbol _⟩
  rw [hbase]
  simp only [analyzeFetched, List.isEmpty_nil, if_true]

/-- Witness for C4 at symbol A with an empty cache and an upstream search
returning no tweets. -/
theorem claim_C4_empty_batch_neutral_cached_witness :
    analyze_market_sentiment (fun _ => 0) (fun _ => []) [] 0 "A"
        (fun _ => FetchOutcome.ok [])
      = (AnalyzeOutcome.ok (neutralResponse "A"),
         dictSet [] "A" (0, neutralResponse "A"), 1) ∧
    (neutralResponse "A").sentiment_label = "neutral" ∧
    (neutralResponse "A").bullish_ratio = 1/2 ∧
    (dictSet ([] : SentimentCache) "A" ((0 : ℚ), neutralResponse "A")).find?
        (fun p => p.1 == "A")
      = some ("A", ((0 : ℚ), neutralResponse "A")) := by
  have h := claim_C4_empty_batch_neutral_cached (fun _ => 0) (fun _ => [])
    [] 0 "A" (fun _ => FetchOutcome.ok []) rfl rfl
  exact ⟨h.1, h.2.2.1, h.2.2.2.2.2.2.1, h.2.2.2.2.2.2.2⟩

lemma buildResponse_tweet_count (score : String → ℚ)
    (noun_phrases : String → List String) (symbol : String)
    (texts : List String) :
    (buildResponse score noun_phrases symbol texts).tweet_count
      = texts.length := rfl

lemma analyzeFetched_ok_nonempty (score : String → ℚ)
    (noun_phrases : String → List String) (cache : SentimentCache) (now : ℚ)
    (symbol : String) (texts : List String) (hne : texts.isEmpty = false) :
    analyzeFetched score noun_phrases cache now symbol (FetchOutcome.ok texts)
      = (AnalyzeOutcome.ok (buildResponse score noun_phrases symbol texts),
         dictSet cache symbol (now, buildResponse score noun_phrases symbol texts)) := by
  simp only [analyzeFetched]
  rw [if_neg (by simp [hne])]

lemma buildMarketAnalysis_news_length (scorer : String → Except String ℚ)
    (std : List ℚ → ℚ) (now : ℚ) (symbol : String) (closes : List ℚ)
    (news : List Article) :
    (buildMarketAnalysis scorer std now symbol closes news).news_analysis.length
      ≤ 10 := by
  unfold buildMarketAnalysis
  simp only [List.length_map, List.length_take]
  omega

lemma service_analyze_ok (scorer : String → Except String ℚ)
    (std : List ℚ → ℚ) (m : TwitterMarketMCP MarketAnalysisResult) (now : ℚ)
    (symbol : String) (closes : List ℚ) (news : List Article)
    (hmiss : m.get_cached_sentiment now symbol = none)
    (hne : closes.isEmpty = false) :
    TwitterMarketMCP.analyze_market_sentiment scorer std m now symbol closes news
      = Except.ok (buildMarketAnalysis scorer std now symbol closes news,
          m.cache_sentiment now symbol
            (buildMarketAnalysis scorer std now symbol closes news)) := by
  unfold TwitterMarketMCP.analyze_market_sentiment
  rw [hmiss]
  rw [if_neg (by simp [hne])]

lemma service_analyze_error (scorer : String → Except String ℚ)
    (std : List ℚ → ℚ) (m : TwitterMarketMCP MarketAnalysisResult) (now : ℚ)
    (symbol : String) (closes : List ℚ) (news : List Article)
    (hmiss : m.get_cached_sentiment now symbol = none)
    (hemp : closes.isEmpty = true) :
    TwitterMarketMCP.analyze_market_sentiment scorer std m now symbol closes news
      = Except.error ("No data found for symbol " ++ symbol) := by
  unfold TwitterMarketMCP.analyze_market_sentiment
  rw [hmiss]
  rw [if_pos hemp]

/-- C10: the endpoint requests at most `search_max_results = 10` items from
the upstream search, so under that request every cache-miss response reports
`tweet_count` at most 10; and the `TwitterMarketMCP` pipeline truncates the
news batch to its first 10 items before scoring, so every successfully
produced cache-miss result carries at most 10 scored news items regardless of
how much upstream data exists. -/
theorem claim_C10_at_most_ten_items (score : String → ℚ)
    (noun_phrases : String → List String) (cache : SentimentCache) (now : ℚ)
    (symbol : String) (search : ℕ → FetchOutcome) (texts : List String)
    (hmiss : cachedFresh cache now symbol = none)
    (hsearch : search search_max_results = FetchOutcome.ok texts)
    (hhonor : texts.length ≤ search_max_results) :
    search_max_results = 10 ∧
    (∀ (r : MarketSentimentResponse) (cache2 : SentimentCache),
      analyze_market_sentiment score noun_phrases cache now symbol search
        = (AnalyzeOutcome.ok r, cache2, 1) → r.tweet_count ≤ 10) ∧
    (∀ (scorer : String → Except String ℚ) (std : List ℚ → ℚ)
        (m : TwitterMarketMCP MarketAnalysisResult) (now2 : ℚ)
        (symbol2 : String) (closes : List ℚ) (news : List Article)
        (result2 : MarketAnalysisResult)
        (m2 : TwitterMarketMCP MarketAnalysisResult),
      m.get_cached_sentiment now2 symbol2 = none →
      TwitterMarketMCP.analyze_market_sentiment scorer std m now2 symbol2
          closes news = Except.ok (result2, m2) →
      result2.news_analysis.length ≤ 10) := by
  have hbase := analyze_miss score noun_phrases cache now symbol search hmiss
  rw [hsearch] at hbase
  refine ⟨rfl, ?_, ?_⟩
  · intro r cache2 hr
    rw [hbase] at hr
    by_cases hemp : texts.isEmpty
    · simp only [analyzeFetched, hemp, if_true] at hr
      have hok : AnalyzeOutcome.ok (neutralResponse symbol)
          = AnalyzeOutcome.ok r := congrArg (fun t => t.1) hr
      have hnr : neutralResponse symbol = r := by injection hok
      rw [← hnr]
      norm_num [neutralResponse]
    · rw [Bool.not_eq_true] at hemp
      rw [analyzeFetched_ok_nonempty score noun_phrases cache now symbol texts
        hemp] at hr
      have hok : AnalyzeOutcome.ok (buildResponse score noun_phrases symbol texts)
          = AnalyzeOutcome.ok r := congrArg (fun t => t.1) hr
      have hbr : buildResponse score noun_phrases symbol texts = r := by
        injection hok
      rw [← hbr, buildResponse_tweet_count]
      exact hhonor
  · intro scorer std m now2 symbol2 closes news result2 m2 hm2 hres
    by_cases hemp : closes.isEmpty
    · rw [service_analyze_error scorer std m now2 symbol2 closes news hm2 hemp]
        at hres
      cases hres
    · rw [Bool.not_eq_true] at hemp
      rw [service_analyze_ok scorer std m now2 symbol2 closes news hm2 hemp]
        at hres
      have hpair : (buildMarketAnalysis scorer std now2 symbol2 closes news,
          m.cache_sentiment now2 symbol2
            (buildMarketAnalysis scorer std now2 symbol2 closes news))
          = (result2, m2) := by injection hres
      have h1 : buildMarketAnalysis scorer std now2 symbol2 closes news
          = result2 := congrArg (fun p => p.1) hpair
      rw [← h1]
      exact buildMarketAnalysis_news_length scorer std now2 symbol2 closes news

/-- Witness for C10 with an empty cache and an upstream search returning no
tweets. -/
theorem claim_C10_at_most_ten_items_witness :
    search_max_results = 10 ∧
    (∀ (r : MarketSentimentResponse) (cache2 : SentimentCache),
      analyze_market_sentiment (fun _ => 0) (fun _ => []) [] 0 "A"
          (fun _ => FetchOutcome.ok [])
        = (AnalyzeOutcome.ok r, cache2, 1) → r.tweet_count ≤ 10) ∧
    (∀ (scorer : String → Except String ℚ) (std : List ℚ → ℚ)
        (m : TwitterMarketMCP MarketAnalysisResult) (now2 : ℚ)
        (symbol2 : String) (closes : List ℚ) (news : List Article)
        (result2 : MarketAnalysisResult)
        (m2 : TwitterMarketMCP MarketAnalysisResult),
      m.get_cached_sentiment now2 symbol2 = none →
      TwitterMarketMCP.analyze_market_sentiment scorer std m now2 symbol2
          closes news = Except.ok (result2, m2) →
      result2.news_analysis.length ≤ 10) :=
  claim_C10_at_most_ten_items (fun _ => 0) (fun _ => []) [] 0 "A"
    (fun _ => FetchOutcome.ok []) [] rfl rfl (by norm_num)
